import Mathlib

/-!
Shallow embedding of the pygrf binary-format readers (GRF archive, SPR
sprites, ACT animations, GAT tile maps) and proofs about the properties
the specification states for them.

Conventions of the embedding:
* a Python `bytes` value is a `List Nat` whose entries are byte values;
* a Python binary stream (`io.BytesIO` / an open file) is a `BStream`:
  the underlying bytes plus a cursor, and `bread` models `stream.read(n)`
  (which clamps at end of data) while `unpackBytes` models
  `struct.unpack(fmt, stream.read(n))` (which needs exactly `n` bytes);
* Python exceptions are values of `PyErr`; fallible code returns `Except`;
* IEEE-754 single-precision values that the source merely stores and moves
  around (ACT intervals, zooms, angles) are kept as their little-endian
  32-bit patterns (`F32`); the GAT decoder, which does arithmetic on
  heights, decodes finite `f32` patterns into exact rationals;
* external collaborators of the repository (zlib decompression, the legacy
  CJK text codecs) are parameters of the definitions that use them.
-/

set_option autoImplicit false

namespace PyGrf

/-- The kinds of Python exceptions the embedded code can raise.
`indexErr`/`typeErr`/`eofErr`/`keyErr`/`unicodeErr` are the builtin
`IndexError`, `TypeError`, `EOFError`, `KeyError`, `UnicodeDecodeError`;
`structErr` is `struct.error`; the remaining constructors carry the message
of the repository's own exception classes (`FileParseError`,
`GRFParseError`, `InvalidGATError`). -/
inductive PyErr where
  | indexErr
  | typeErr
  | eofErr
  | keyErr
  | unicodeErr
  | structErr
  | fileParse (msg : String)
  | grfParse (msg : String)
  | gatParse (msg : String)
  deriving Repr, DecidableEq

/-- Little-endian value of a byte list (least significant byte first). -/
def leVal : List Nat → Nat
  | [] => 0
  | b :: rest => b + 256 * leVal rest

/-- The `n` bytes of `data` starting at `start` (Python `data[start:start+n]`,
which clamps at the end of the buffer). -/
def slice (data : List Nat) (start n : Nat) : List Nat :=
  (data.drop start).take n

/-- Little-endian u16 at byte offset `off`. -/
def u16At (data : List Nat) (off : Nat) : Nat :=
  leVal (slice data off 2)

/-- Little-endian u32 at byte offset `off`. -/
def u32At (data : List Nat) (off : Nat) : Nat :=
  leVal (slice data off 4)

/-- Interpret a (little-endian) u32 value as a signed i32. -/
def i32OfU32 (v : Nat) : Int :=
  if v < 2 ^ 31 then (v : Int) else (v : Int) - 2 ^ 32

/-- Little-endian i32 at byte offset `off`. -/
def i32At (data : List Nat) (off : Nat) : Int :=
  i32OfU32 (u32At data off)

/-- A seekable in-memory byte stream: `io.BytesIO` or an open binary file. -/
structure BStream where
  data : List Nat
  pos : Nat
  deriving Repr, DecidableEq

/-- `stream.read(n)`: returns at most `n` bytes, advancing the cursor by the
number of bytes actually returned. -/
def bread (st : BStream) (n : Nat) : List Nat × BStream :=
  let chunk := slice st.data st.pos n
  (chunk, ⟨st.data, st.pos + chunk.length⟩)

/-- `stream.read()`: returns everything from the cursor to the end. -/
def breadAll (st : BStream) : List Nat × BStream :=
  let chunk := st.data.drop st.pos
  (chunk, ⟨st.data, st.pos + chunk.length⟩)

/-- `struct.unpack(fmt, stream.read(n))` for a format of size `n`: reads `n`
bytes and fails with `struct.error` if fewer are available. -/
def unpackBytes (st : BStream) (n : Nat) : Except PyErr (List Nat × BStream) :=
  let (chunk, st') := bread st n
  if chunk.length = n then .ok (chunk, st') else .error .structErr

/-- `struct.unpack('<H', stream.read(2))`. -/
def readU16 (st : BStream) : Except PyErr (Nat × BStream) := do
  let (bs, st') ← unpackBytes st 2
  .ok (leVal bs, st')

/-- `struct.unpack('<I', stream.read(4))`. -/
def readU32 (st : BStream) : Except PyErr (Nat × BStream) := do
  let (bs, st') ← unpackBytes st 4
  .ok (leVal bs, st')

/-- `struct.unpack('<i', stream.read(4))`. -/
def readI32 (st : BStream) : Except PyErr (Int × BStream) := do
  let (bs, st') ← unpackBytes st 4
  .ok (i32OfU32 (leVal bs), st')

/-- Split a byte list into groups of four; a trailing group shorter than
four bytes is dropped (callers establish divisibility first, mirroring
`struct.iter_unpack`, which rejects a buffer of indivisible length). -/
def chunks4 : List Nat → List (List Nat)
  | a :: b :: c :: d :: rest => [a, b, c, d] :: chunks4 rest
  | _ => []

/-- Run a stream-consuming parser `n` times, collecting the results
(`tuple(parse(stream) for _ in range(n))`). -/
def repParse {α : Type} (f : BStream → Except PyErr (α × BStream)) :
    Nat → BStream → Except PyErr (List α × BStream)
  | 0, st => .ok ([], st)
  | n + 1, st => do
    let (a, st) ← f st
    let (as, st) ← repParse f n st
    .ok (a :: as, st)

/-! ### graphics.py -/

/-- graphics.Point: a 2D integer point. -/
structure Point where
  x : Int
  y : Int
  deriving Repr, DecidableEq

/-- graphics.Color: an RGBA color with four 8-bit channels. -/
structure Color where
  r : Nat
  g : Nat
  b : Nat
  a : Nat
  deriving Repr, DecidableEq

/-- graphics.Color.from_rgba32: split a 32-bit integer into channels,
R in the high byte down to A in the low byte. -/
def fromRgba32 (color : Nat) : Color :=
  { r := (color &&& 0xff000000) >>> 24
    g := (color &&& 0xff0000) >>> 16
    b := (color &&& 0xff00) >>> 8
    a := color &&& 0xff }

/-- graphics.Image: width, height and the decoded pixel sequence. -/
structure Image where
  width : Nat
  height : Nat
  pixels : List Color
  deriving Repr, DecidableEq

/-! ### spr.py -/

/-- spr._unpack_rle: expand run-length encoded data.  The source iterates an
index over the buffer: a non-zero byte is emitted literally; a zero byte
makes it read the following byte `n` (raising `IndexError` when the zero is
the last byte) and emit `n` zero bytes, skipping both.  The recursion below
processes the same suffixes the loop visits. -/
def unpackRle : List Nat → Except PyErr (List Nat)
  | [] => .ok []
  | 0 :: [] => .error .indexErr
  | 0 :: n :: rest => (fun out => List.replicate n 0 ++ out) <$> unpackRle rest
  | b :: rest => (fun out => b :: out) <$> unpackRle rest

/-- Whether the `_unpack_rle` loop over `s`, started at the head of `s`,
visits the suffix `t` (i.e. reaches the byte at that position as a new
run/literal marker rather than consuming it as a preceding run's count). -/
def rleReaches (s t : List Nat) : Bool :=
  if s = t then true
  else
    match s with
    | [] => false
    | 0 :: [] => false
    | 0 :: _ :: rest => rleReaches rest t
    | _ :: rest => rleReaches rest t

/-- spr: the SPR versions `_get_parser` accepts. -/
def sprVersions : List Nat := [0x100, 0x101, 0x200, 0x201]

/-- spr._parse_header followed by `_get_parser`'s version dispatch: the
version of the file, or the error `SPR.__init__` raises. -/
def sprVersion (data : List Nat) : Except PyErr Nat :=
  if ¬ slice data 0 2 = [83, 80] then .error (.fileParse "invalid header signature")
  else if data.length < 4 then .error (.fileParse "invalid header length")
  else
    let v := u16At data 2
    if v ∈ sprVersions then .ok v else .error (.fileParse "unsupported version")

/-- `struct.unpack_from(fmt, data, offset)` for a format of size `n`: fails
with `struct.error` when fewer than `n` bytes remain at `offset`. -/
def unpackFrom (data : List Nat) (off n : Nat) : Except PyErr (List Nat) :=
  if off + n ≤ data.length then .ok (slice data off n) else .error .structErr

/-- spr `parse_count`: `(pal_count, rgb_count)`.  Versions up to 0x101 read a
single u16 after the header and have no rgb images; versions from 0x200 read
two u16s. -/
def sprParseCount (v : Nat) (data : List Nat) : Except PyErr (Nat × Nat) :=
  if v ≤ 0x101 then do
    let bs ← unpackFrom data 4 2
    .ok (leVal bs, 0)
  else do
    let bs ← unpackFrom data 4 4
    .ok (leVal (bs.take 2), leVal (bs.drop 2))

/-- spr `offset` property: where the image region begins (header size 4 plus
the count block's size). -/
def sprImageBase (v : Nat) : Nat :=
  if v ≤ 0x101 then 6 else 8

/-- spr `parse_palette`: version 0x100 has none; later versions decode the
last 1024 bytes of the file as 256 `R G B _` groups with full alpha, then
make entry 0 transparent (`palette[0]` raises `IndexError` when the byte
slice decodes to no entry at all; `iter_unpack` raises `struct.error` when
its length is not a multiple of four). -/
def sprGetPalette (v : Nat) (data : List Nat) : Except PyErr (Option (List Color)) :=
  if v = 0x100 then .ok none
  else
    let tail := data.drop (data.length - 1024)
    if ¬ tail.length % 4 = 0 then .error .structErr
    else
      match (chunks4 tail).map (fun c => Color.mk (c.headI) (c.getD 1 0) (c.getD 2 0) 255) with
      | [] => .error .indexErr
      | c0 :: rest => .ok (some ({ c0 with a := 0 } :: rest))

/-- spr `pal_size`: size in bytes of the indexed-image record at `offset`
(`4 + w*h` up to version 0x200; `6 + size` for the 0x201 compressed form). -/
def sprPalSize (v : Nat) (data : List Nat) (off : Nat) : Except PyErr Nat :=
  if v = 0x201 then do
    let bs ← unpackFrom data off 6
    .ok (6 + leVal (slice bs 4 2))
  else do
    let bs ← unpackFrom data off 4
    .ok (leVal (bs.take 2) * leVal (slice bs 2 2) + 4)

/-- spr `rgb_size`: size in bytes of the direct-color record at `offset`;
versions up to 0x101 contain no rgb images and raise. -/
def sprRgbSize (v : Nat) (data : List Nat) (off : Nat) : Except PyErr Nat :=
  if v ≤ 0x101 then .error (.fileParse "this version of the format contains no rgb images")
  else do
    let bs ← unpackFrom data off 4
    .ok (leVal (bs.take 2) * leVal (slice bs 2 2) * 4 + 4)

/-- The offset-advancing loop shared by `pal_offset` and `rgb_offset`:
starting from `off`, add the size of `n` consecutive records. -/
def sprAdvance (size : Nat → Except PyErr Nat) : Nat → Nat → Except PyErr Nat
  | 0, off => .ok off
  | n + 1, off => do
    let s ← size off
    sprAdvance size n (off + s)

/-- spr `pal_offset`: offset of the `index`-th indexed image. -/
def sprPalOffset (v : Nat) (data : List Nat) (index : Nat) : Except PyErr Nat :=
  sprAdvance (sprPalSize v data) index (sprImageBase v)

/-- spr `rgb_offset`: offset of the `index`-th direct-color image (indexed
from the end of the indexed-image region). -/
def sprRgbOffset (v : Nat) (data : List Nat) (palCount index : Nat) : Except PyErr Nat := do
  let base ← sprPalOffset v data palCount
  sprAdvance (sprRgbSize v data) index base

/-- Look every palette index up in the palette (`palette[i]` raises
`IndexError` for an index beyond the palette's length). -/
def mapPalette (palette : List Color) (indices : List Nat) : Except PyErr (List Color) :=
  match indices with
  | [] => .ok []
  | i :: rest =>
    match palette.get? i with
    | none => .error .indexErr
    | some c => (fun cs => c :: cs) <$> mapPalette palette rest

/-- spr `parse_pal`: decode the indexed image at `off`.  Up to version 0x200
the record is `w h` followed by `w*h` palette indices; version 0x201 stores
`w h size` followed by `size` bytes of zero-run compressed indices.  Neither
variant compares the pixel count against `w*h`. -/
def sprParsePal (v : Nat) (data : List Nat) (palette : List Color) (off : Nat) :
    Except PyErr Image :=
  if v = 0x201 then do
    let bs ← unpackFrom data off 6
    let w := leVal (bs.take 2)
    let h := leVal (slice bs 2 2)
    let size := leVal (slice bs 4 2)
    let indices ← unpackRle (slice data (off + 6) size)
    let pixels ← mapPalette palette indices
    .ok ⟨w, h, pixels⟩
  else do
    let bs ← unpackFrom data off 4
    let w := leVal (bs.take 2)
    let h := leVal (slice bs 2 2)
    let pixels ← mapPalette palette (slice data (off + 4) (w * h))
    .ok ⟨w, h, pixels⟩

/-- spr `parse_rgb`: decode the direct-color image at `off` (`w h` then
`w*h` little-endian u32 RGBA pixels, stored bottom-up: the decoder reverses
the row order). -/
def sprParseRgb (v : Nat) (data : List Nat) (off : Nat) : Except PyErr Image :=
  if v ≤ 0x101 then .error (.fileParse "this version of the format contains no rgb images")
  else do
    let bs ← unpackFrom data off 4
    let w := leVal (bs.take 2)
    let h := leVal (slice bs 2 2)
    let raw := slice data (off + 4) (w * h * 4)
    if ¬ raw.length % 4 = 0 then .error .structErr
    else
      let pixels := (chunks4 raw).map (fun c => fromRgba32 (leVal c))
      let rows := (List.range h).map (fun row => slice' pixels (row * w) w)
      .ok ⟨w, h, rows.reverse.flatten⟩
where
  /-- Python list slicing `pixels[a : a + n]` on the pixel list. -/
  slice' (l : List Color) (start n : Nat) : List Color := (l.drop start).take n

/-- spr `get_image`: indexed images come first; an indexed request on a
palette-less file (version 0x100) raises the NoPalette error before any
record is decoded. -/
def sprGetImage (v : Nat) (data : List Nat) (index : Nat) : Except PyErr Image := do
  let (pal, _) ← sprParseCount v data
  if index < pal then do
    match ← sprGetPalette v data with
    | none => .error (.fileParse "unable to parse pal images without a palette")
    | some palette => do
      let off ← sprPalOffset v data index
      sprParsePal v data palette off
  else do
    let off ← sprRgbOffset v data pal (index - pal)
    sprParseRgb v data off

/-- An index value handed to `SPR.__getitem__`: a Python `int`, or any
non-integer object. -/
inductive PyIndex where
  | int (i : Int)
  | nonInt
  deriving Repr, DecidableEq

/-- SPR.__len__: `parser.count`, the sum of the two counts. -/
def sprLen (v : Nat) (data : List Nat) : Except PyErr Nat := do
  let (pal, rgb) ← sprParseCount v data
  .ok (pal + rgb)

/-- SPR.__getitem__: non-integer indices raise `IndexError` at once;
negative indices are shifted by the length; indices still outside
`[0, len)` raise `IndexError`; the rest are handed to `get_image`. -/
def sprGetItem (v : Nat) (data : List Nat) : PyIndex → Except PyErr Image
  | .nonInt => .error .indexErr
  | .int i => do
    let length ← sprLen v data
    let i' := if i < 0 then (length : Int) + i else i
    if i' < 0 ∨ i' ≥ (length : Int) then .error .indexErr
    else sprGetImage v data i'.toNat

/-! ### UTF-8 decoding

Python's default `bytes.decode()` codec, used by the ACT trigger decoder
(strict) and by the filename fallback (`backslashreplace`). -/

/-- Whether a byte is a UTF-8 continuation byte. -/
def utf8Cont (b : Nat) : Bool := decide (0x80 ≤ b ∧ b ≤ 0xbf)

/-- Range check for the first continuation byte after a three-byte lead
(UTF-8 excludes overlong forms after `E0` and surrogates after `ED`). -/
def utf8Cont3 (lead c : Nat) : Bool :=
  if lead = 0xe0 then decide (0xa0 ≤ c ∧ c ≤ 0xbf)
  else if lead = 0xed then decide (0x80 ≤ c ∧ c ≤ 0x9f)
  else utf8Cont c

/-- Range check for the first continuation byte after a four-byte lead
(UTF-8 excludes overlong forms after `F0` and anything above U+10FFFF
after `F4`). -/
def utf8Cont4 (lead c : Nat) : Bool :=
  if lead = 0xf0 then decide (0x90 ≤ c ∧ c ≤ 0xbf)
  else if lead = 0xf4 then decide (0x80 ≤ c ∧ c ≤ 0x8f)
  else utf8Cont c

/-- Decode one UTF-8 unit: either a code point, or the invalid span that a
`backslashreplace` error handler would escape (the maximal subpart), plus
the remaining input in both cases. -/
def utf8One : List Nat → (Except (List Nat) Nat) × List Nat
  | [] => (.error [], [])
  | b :: rest =>
    if b < 0x80 then (.ok b, rest)
    else if 0xc2 ≤ b ∧ b ≤ 0xdf then
      match rest with
      | c :: rest' =>
        if utf8Cont c then (.ok ((b - 0xc0) * 0x40 + (c - 0x80)), rest')
        else (.error [b], rest)
      | [] => (.error [b], [])
    else if 0xe0 ≤ b ∧ b ≤ 0xef then
      match rest with
      | c1 :: rest1 =>
        if utf8Cont3 b c1 then
          match rest1 with
          | c2 :: rest2 =>
            if utf8Cont c2 then
              (.ok ((b - 0xe0) * 0x1000 + (c1 - 0x80) * 0x40 + (c2 - 0x80)), rest2)
            else (.error [b, c1], rest1)
          | [] => (.error [b, c1], [])
        else (.error [b], rest)
      | [] => (.error [b], [])
    else if 0xf0 ≤ b ∧ b ≤ 0xf4 then
      match rest with
      | c1 :: rest1 =>
        if utf8Cont4 b c1 then
          match rest1 with
          | c2 :: rest2 =>
            if utf8Cont c2 then
              match rest2 with
              | c3 :: rest3 =>
                if utf8Cont c3 then
                  (.ok ((b - 0xf0) * 0x40000 + (c1 - 0x80) * 0x1000
                    + (c2 - 0x80) * 0x40 + (c3 - 0x80)), rest3)
                else (.error [b, c1, c2], rest2)
              | [] => (.error [b, c1, c2], [])
            else (.error [b, c1], rest1)
          | [] => (.error [b, c1], [])
        else (.error [b], rest)
      | [] => (.error [b], [])
    else (.error [b], rest)

/-- Lowercase hexadecimal digit. -/
def hexDigitChar (n : Nat) : Char :=
  if n < 10 then Char.ofNat (48 + n) else Char.ofNat (87 + n)

/-- The `backslashreplace` rendering of an invalid span: `\xNN` per byte. -/
def hexEscape (span : List Nat) : List Char :=
  span.foldr (fun b acc => '\\' :: 'x' :: hexDigitChar (b / 16 % 16) :: hexDigitChar (b % 16) :: acc) []

/-- Fuel-driven loop of the UTF-8/backslashreplace decoder (`utf8One`
always consumes at least one byte, so fuel equal to the input length is
enough). -/
def utf8BsrGo : Nat → List Nat → List Char
  | 0, _ => []
  | _ + 1, [] => []
  | fuel + 1, l =>
    match utf8One l with
    | (.ok cp, rest) => Char.ofNat cp :: utf8BsrGo fuel rest
    | (.error span, rest) => hexEscape span ++ utf8BsrGo fuel rest

/-- `name.decode(errors='backslashreplace')`: UTF-8 with invalid spans
escaped. -/
def utf8Bsr (bs : List Nat) : List Char := utf8BsrGo bs.length bs

/-- Fuel-driven loop of the strict UTF-8 decoder. -/
def utf8StrictGo : Nat → List Nat → Option (List Char)
  | 0, _ => some []
  | _ + 1, [] => some []
  | fuel + 1, l =>
    match utf8One l with
    | (.ok cp, rest) => (utf8StrictGo fuel rest).map (Char.ofNat cp :: ·)
    | (.error _, _) => none

/-- `bytes.decode()`: strict UTF-8, `none` standing for
`UnicodeDecodeError`. -/
def utf8Strict (bs : List Nat) : Option String :=
  (utf8StrictGo bs.length bs).map String.mk

/-! ### act.py

The ACT decoder stores every IEEE-754 single it reads (zooms, angles,
intervals) without doing arithmetic on it, so those fields are embedded as
the little-endian 32-bit patterns themselves. -/

/-- A stored IEEE-754 single-precision value, kept as its 32-bit pattern. -/
abbrev F32 := Nat

/-- Bit pattern of the single-precision literal `1.0`. -/
def floatOne : F32 := 0x3f800000

/-- Bit pattern of the single-precision literal `4.0`, the default
animation interval. -/
def floatFour : F32 := 0x40800000

/-- graphics.Vector2 as used by the ACT decoder: two stored singles. -/
structure Vector2 where
  x : F32
  y : F32
  deriving Repr, DecidableEq

/-- act.Layer with its NamedTuple defaults. -/
structure Layer where
  offset : Point
  index : Nat
  flipped : Bool
  color : Color := ⟨255, 255, 255, 255⟩
  zoom : Vector2 := ⟨floatOne, floatOne⟩
  angle : F32 := 0
  deriving Repr, DecidableEq

/-- act.Frame with its trigger default. -/
structure Frame where
  layers : List Layer
  trigger : Int := -1
  deriving Repr, DecidableEq

/-- act.Animation with its interval default. -/
structure Animation where
  frames : List Frame
  interval : F32 := floatFour
  deriving Repr, DecidableEq

/-- The value a parsed ACT object exposes. -/
structure ActFile where
  version : Nat
  animations : List Animation
  triggers : List String
  deriving Repr, DecidableEq

/-- The color step of act.parse_layer: from version 0x200 read four bytes
with `<4B>` and `_replace` the color with them in file order. -/
def parseLayerColor (version : Nat) (layer : Layer) (st : BStream) :
    Except PyErr (Layer × BStream) :=
  if version ≥ 0x200 then do
    let (cs, st) ← unpackBytes st 4
    .ok ({ layer with color := ⟨cs.headI, cs.getD 1 0, cs.getD 2 0, cs.getD 3 0⟩ }, st)
  else .ok (layer, st)

/-- The zoom step of act.parse_layer: from version 0x204 two singles
`<ff>`; otherwise, from version 0x200, one single used for both axes. -/
def parseLayerZoom (version : Nat) (layer : Layer) (st : BStream) :
    Except PyErr (Layer × BStream) :=
  if version ≥ 0x204 then do
    let (zs, st) ← unpackBytes st 8
    .ok ({ layer with zoom := ⟨u32At zs 0, u32At zs 4⟩ }, st)
  else if version ≥ 0x200 then do
    let (zs, st) ← unpackBytes st 4
    let z := u32At zs 0
    .ok ({ layer with zoom := ⟨z, z⟩ }, st)
  else .ok (layer, st)

/-- The angle step of act.parse_layer: from version 0x200 one single. -/
def parseLayerAngle (version : Nat) (layer : Layer) (st : BStream) :
    Except PyErr (Layer × BStream) :=
  if version ≥ 0x200 then do
    let (as, st) ← unpackBytes st 4
    .ok ({ layer with angle := u32At as 0 }, st)
  else .ok (layer, st)

/-- act.parse_layer: always `<iiII>` = x, y, sprite index, flags (flipped
when the flags word is non-zero); then the version-gated color, zoom and
angle steps.  The trailing reserved bytes are consumed with a plain `read`,
which does not fail when short. -/
def parseLayer (version : Nat) (st : BStream) : Except PyErr (Layer × BStream) := do
  let (bs, st) ← unpackBytes st 16
  let x := i32At bs 0
  let y := i32At bs 4
  let index := u32At bs 8
  let flags := u32At bs 12
  let layer : Layer := { offset := ⟨x, y⟩, index := index, flipped := flags ≠ 0 }
  let (layer, st) ← parseLayerColor version layer st
  let (layer, st) ← parseLayerZoom version layer st
  let (layer, st) ← parseLayerAngle version layer st
  let st :=
    if version ≥ 0x205 then (bread st 12).2
    else if version ≥ 0x200 then (bread st 4).2
    else st
  .ok (layer, st)

/-- act.parse_frame: 32 reserved bytes and an i32 layer count (`<32xi>`),
the layers, then the version-gated trigger and anchors.  A negative layer
count yields no layers (`range` of a negative number is empty); a negative
anchor count makes `read(16*count)` read everything that remains (a Python
`read` with a negative argument reads to the end). -/
def parseFrame (version : Nat) (st : BStream) : Except PyErr (Frame × BStream) := do
  let (bs, st) ← unpackBytes st 36
  let layerCount := i32At bs 32
  let (layers, st) ← repParse (parseLayer version) layerCount.toNat st
  let (trigger, st) ←
    if version ≥ 0x200 then readI32 st
    else .ok (-1, st)
  let st ←
    if version ≥ 0x203 then do
      let (count, st) ← readI32 st
      if count < 0 then .ok (breadAll st).2
      else .ok (bread st (16 * count.toNat)).2
    else .ok st
  .ok (⟨layers, trigger⟩, st)

/-- act.parse_animation: an i32 frame count followed by the frames; the
interval starts at the default 4.0. -/
def parseAnimation (version : Nat) (st : BStream) : Except PyErr (Animation × BStream) := do
  let (frameCount, st) ← readI32 st
  let (frames, st) ← repParse (parseFrame version) frameCount.toNat st
  .ok (⟨frames, floatFour⟩, st)

/-- Strip leading and trailing zero bytes (`bytes.strip(b'\x00')`). -/
def stripNulls (bs : List Nat) : List Nat :=
  ((bs.dropWhile (· = 0)).reverse.dropWhile (· = 0)).reverse

/-- act.parse_triggers: an i32 count, then that many 40-byte null-padded
records, each stripped of the zero bytes at its ends and decoded as strict
UTF-8 (raising `UnicodeDecodeError` on undecodable content).  The 40-byte
`read` is a plain read and may come back short near the end of the file. -/
def parseTriggers (st : BStream) : Except PyErr (List String × BStream) := do
  let (count, st) ← readI32 st
  repParse
    (fun st => do
      let (bs, st) := bread st 40
      match utf8Strict (stripNulls bs) with
      | none => .error .unicodeErr
      | some s => .ok (s, st))
    count.toNat st

/-- The per-animation interval patterns encoded in the file tail:
`struct.iter_unpack('<f', rest)` demands a length divisible by four and
yields one single per four bytes, in order. -/
def intervalsOf (rest : List Nat) : List F32 :=
  (chunks4 rest).map leVal

/-- act.parse_intervals: read the remaining bytes, decode them as a
sequence of singles and pair them with the animations via `zip`, replacing
each paired animation's interval.  `zip` stops at the shorter sequence, so
animations beyond the number of decoded singles are dropped, and singles
beyond the number of animations are ignored. -/
def parseIntervals (anims : List Animation) (st : BStream) :
    Except PyErr (List Animation × BStream) :=
  let (rest, st) := breadAll st
  if ¬ rest.length % 4 = 0 then .error .structErr
  else .ok (List.zipWith (fun a f => { a with interval := f }) anims (intervalsOf rest), st)

/-- util.get_version: seek to the start, compare the signature bytes, read a
u16 version and check it against the supported list only when such a list is
given and non-empty (`if supported and not version in supported` in the
source: a `None` or empty list skips the check). -/
def getVersion (st : BStream) (signature : List Nat) (supported : Option (List Nat)) :
    Except PyErr (Nat × BStream) := do
  let (sig, st) := bread ⟨st.data, 0⟩ signature.length
  if ¬ sig = signature then .error (.fileParse "invalid signature")
  else do
    let (v, st) ← readU16 st
    match supported with
    | some vs => if vs ≠ [] ∧ v ∉ vs then .error (.fileParse "unsupported version") else .ok (v, st)
    | none => .ok (v, st)

/-- The ACT signature bytes `AC`. -/
def actSignature : List Nat := [65, 67]

/-- ACT.__init__: check the signature and read the version with
`get_version(self, b'AC')` — no supported-version list is passed, so no
version value is ever rejected.  Then `<H10x>` (animation count plus ten
reserved bytes), the animations, the trigger table and the interval table;
the source applies the last two unconditionally, with no version gate. -/
def actInit (data : List Nat) : Except PyErr ActFile := do
  let (version, st) ← getVersion ⟨data, 0⟩ actSignature none
  let (bs, st) ← unpackBytes st 12
  let count := u16At bs 0
  let (anims, st) ← repParse (parseAnimation version) count st
  let (triggers, st) ← parseTriggers st
  let (anims, _) ← parseIntervals anims st
  .ok ⟨version, anims, triggers⟩

/-! ### gat.py

The GAT decoder negates and averages the stored heights, so here the
single-precision fields are decoded exactly into rationals.  Patterns with
exponent 255 (infinities and NaNs) have no rational value and make the
decode return `none`, as does a record of the wrong length (where the
source's `struct.unpack` raises). -/

/-- Exact rational value of a finite IEEE-754 single given by its 32-bit
pattern; `none` for the exponent-255 patterns (infinities, NaNs). -/
def f32ToRat (bits : Nat) : Option ℚ :=
  let sign : ℚ := if bits / 2 ^ 31 % 2 = 1 then -1 else 1
  let exp : Nat := bits / 2 ^ 23 % 256
  let frac : Nat := bits % 2 ^ 23
  if exp = 255 then none
  else if exp = 0 then some (sign * (frac : ℚ) * ((2 : ℚ) ^ (149 : ℕ))⁻¹)
  else some (sign * ((2 : ℚ) ^ (23 : ℕ) + (frac : ℚ)) * (2 : ℚ) ^ ((exp : ℤ) - 150))

/-- gat.Tile: the four sign-flipped heights, the type flag and the derived
altitude. -/
structure Tile where
  bottom_left : ℚ
  bottom_right : ℚ
  top_left : ℚ
  top_right : ℚ
  type : Nat
  altitude : ℚ
  deriving Repr, DecidableEq

/-- gat.parse_tile: `<ffffI>` over exactly 20 bytes — the stored heights in
the order bottom left, bottom right, top left, top right, then the type
word.  Each height is negated on decode and the altitude is the mean of the
negated heights (`sum(heights) / len(heights)`). -/
def parseTile (data : List Nat) : Option Tile :=
  if data.length = 20 then
    match f32ToRat (u32At data 0), f32ToRat (u32At data 4),
        f32ToRat (u32At data 8), f32ToRat (u32At data 12) with
    | some bl, some br, some tl, some tr =>
      let heights := [-bl, -br, -tl, -tr]
      let altitude := heights.sum / heights.length
      some ⟨-bl, -br, -tl, -tr, u32At data 16, altitude⟩
    | _, _, _, _ => none
  else none

/-! ### grf.py: opening one file of the archive -/

/-- grf.FileHeader: the five fields of a 17-byte GRF file header, with
`position` already shifted by the 46-byte archive header. -/
structure GRFFileHeader where
  compressed_size : Nat
  archived_size : Nat
  real_size : Nat
  flag : Nat
  position : Nat
  deriving Repr, DecidableEq

/-- grf.parse_file_header: `<III>` over `data[0:12]` (struct.unpack demands
exactly twelve bytes), the flag byte `data[12]` (IndexError when absent),
and `<I>` over `data[13:17]`; 46 is added to the stored position. -/
def parseFileHeader (data : List Nat) : Except PyErr GRFFileHeader := do
  if (data.take 12).length ≠ 12 then .error .structErr
  else
    let compressed := u32At data 0
    let archived := u32At data 4
    let real := u32At data 8
    match data.get? 12 with
    | none => .error .indexErr
    | some flag =>
      if (slice data 13 4).length ≠ 4 then .error .structErr
      else .ok ⟨compressed, archived, real, flag, u32At data 13 + 46⟩

/-- GRFFile.__init__, after the filename lookup: parse the 17-byte header,
seek to its position and, unless the stored real size is zero (empty
payload), read `archived_size` bytes and hand them to zlib.  `inflate`
stands for `zlib.decompress`, an external collaborator; the source never
compares the decompressed length with `real_size`. -/
def grfFileData (inflate : List Nat → Except PyErr (List Nat))
    (headerData stream : List Nat) : Except PyErr (GRFFileHeader × List Nat) := do
  let header ← parseFileHeader headerData
  if header.real_size = 0 then .ok (header, [])
  else do
    let payload ← inflate (slice stream header.position header.archived_size)
    .ok (header, payload)

/-! ### grf.py: filename decoding

`decode_name` tries the legacy codecs `euc_kr`, `johab`, `uhc`, `mskanji`
in order.  Those table-based codecs are external collaborators and are kept
as parameters (`codecs`): each is a partial decoding function.  The final
fallback — `name.decode(errors='backslashreplace')` followed by removing
every `\x` — is Python's UTF-8 decoder with undecodable spans replaced by
lowercase hex escapes, and is embedded concretely below. -/


/-- `name.replace('\\x', '')`: drop every (leftmost-first) occurrence of a
backslash followed by `x`. -/
def stripBsx : List Char → List Char
  | '\\' :: 'x' :: rest => stripBsx rest
  | c :: rest => c :: stripBsx rest
  | [] => []

/-- One legacy codec of the `ENCODINGS` chain: a partial decoder. -/
abbrev Codec := List Nat → Option String

/-- Try the codec chain in order; the first clean decode wins. -/
def firstCodec (codecs : List Codec) (raw : List Nat) : Option String :=
  match codecs with
  | [] => none
  | c :: rest =>
    match c raw with
    | some s => some s
    | none => firstCodec rest raw

/-- grf.decode_name: try each known encoding; upon failure fall back to the
backslashreplace decode and remove the `\x` prefixes, leaving two hex
digits per escaped byte. -/
def decodeName (codecs : List Codec) (raw : List Nat) : String :=
  match firstCodec codecs raw with
  | some s => s
  | none => String.mk (stripBsx (utf8Bsr raw))

/-- The bytes of `b'data'`. -/
def dataBytes : List Nat := [100, 97, 116, 97]

/-- `name.split(b'\\')`: split on the backslash byte, never empty. -/
def splitSep : List Nat → List (List Nat)
  | [] => [[]]
  | b :: rest =>
    if b = 92 then [] :: splitSep rest
    else
      match splitSep rest with
      | p :: ps => (b :: p) :: ps
      | [] => [[b]]

/-- `os.path.join` of two components on a POSIX host: a later absolute
component restarts the path; otherwise the separator is inserted unless one
is already there. -/
def pjoin2 (a b : String) : String :=
  if b.startsWith "/" then b
  else if a = "" ∨ a.endsWith "/" then a ++ b
  else a ++ "/" ++ b

/-- `os.path.join(first, *rest)`. -/
def pjoin (p : String) (ps : List String) : String := ps.foldl pjoin2 p

/-- grf.parse_name: split the raw name into backslash-separated components,
pop a leading `b'data'`, decode each component independently and join the
results with the host separator.  `os.path.join(*[])` — reached exactly
when the raw name is `b'data'` itself — raises `TypeError`. -/
def parseName (codecs : List Codec) (raw : List Nat) : Except PyErr String :=
  let path := splitSep raw
  let path :=
    match path with
    | p :: ps => if p = dataBytes then ps else p :: ps
    | [] => []
  match path.map (decodeName codecs) with
  | [] => .error .typeErr
  | p :: ps => .ok (pjoin p ps)

/-! ### grf.py: the lazy index -/

/-- The state of a grf.Index object: the decompressed index blob wrapped in
a `BytesIO` (here the bytes plus the read cursor) and the insertion-ordered
cache dict `indexed`. -/
structure IndexState where
  blob : List Nat
  pos : Nat
  indexed : List (String × List Nat)
  deriving Repr, DecidableEq

/-- Insert into a Python dict: an existing key keeps its insertion position
and gets the new value; a new key is appended. -/
def dictInsert {α : Type} : List (String × α) → String → α → List (String × α)
  | [], k, v => [(k, v)]
  | (k', v') :: rest, k, v =>
    if k' = k then (k, v) :: rest else (k', v') :: dictInsert rest k v

/-- Look a key up in a Python dict. -/
def dictFind {α : Type} : List (String × α) → String → Option α
  | [], _ => none
  | (k', v) :: rest, k => if k' = k then some v else dictFind rest k

/-- The single-byte read loop at the top of `Index.parse_next`: the bytes of
the name up to (excluding) a null terminator or the end of data, together
with the number of bytes consumed (the terminator included). -/
def splitAtNull : List Nat → List Nat × Nat
  | [] => ([], 0)
  | 0 :: _ => ([], 1)
  | b :: rest =>
    let (nm, c) := splitAtNull rest
    (b :: nm, c + 1)

/-- The pure record step underlying `Index.parse_next` at `pos` of `blob`:
`(.ok none, pos')` models the `EOFError` raised on an empty name (note the
cursor still advances past a lone null byte); a decode failure surfaces
after the name bytes were consumed; otherwise the 17-byte header (short
near the end of data) is read and the record returned. -/
def parseRec (codecs : List Codec) (blob : List Nat) (pos : Nat) :
    Except PyErr (Option (String × List Nat)) × Nat :=
  let (raw, consumed) := splitAtNull (blob.drop pos)
  if raw = [] then (.ok none, pos + consumed)
  else
    match parseName codecs raw with
    | .error e => (.error e, pos + consumed)
    | .ok nm =>
      let hdr := slice blob (pos + consumed) 17
      (.ok (some (nm, hdr)), pos + consumed + hdr.length)

/-- Index.parse_next on the stateful object: parse the next record, store
its header in the cache and return its filename. -/
def parseNext (codecs : List Codec) (s : IndexState) :
    Except PyErr (Option String) × IndexState :=
  match parseRec codecs s.blob s.pos with
  | (.error e, pos') => (.error e, { s with pos := pos' })
  | (.ok none, pos') => (.ok none, { s with pos := pos' })
  | (.ok (some (nm, hdr)), pos') =>
    (.ok (some nm), { s with pos := pos', indexed := dictInsert s.indexed nm hdr })

/-- The on-disk record sequence: repeated `parseRec` from `pos`, ending at
the first empty-name stop, together with the final cursor.  Each produced
record consumes at least one byte, so fuel `blob.length + 1` always
suffices. -/
def drainRecs (codecs : List Codec) (blob : List Nat) :
    Nat → Nat → Except PyErr (List (String × List Nat) × Nat)
  | 0, pos => .ok ([], pos)
  | fuel + 1, pos =>
    match parseRec codecs blob pos with
    | (.error e, _) => .error e
    | (.ok none, pos') => .ok ([], pos')
    | (.ok (some r), pos') => do
      let (rs, e) ← drainRecs codecs blob fuel pos'
      .ok (r :: rs, e)

/-- The `while True: yield self.parse_next()` tail of `Index.__iter__`
(a raised decode error aborts the iteration; the partially mutated state is
then unobservable and is not returned). -/
def iterDrain (codecs : List Codec) :
    Nat → IndexState → Except PyErr (List String × IndexState)
  | 0, s => .ok ([], s)
  | fuel + 1, s =>
    match parseNext codecs s with
    | (.error e, _) => .error e
    | (.ok none, s') => .ok ([], s')
    | (.ok (some nm), s') => do
      let (nms, s'') ← iterDrain codecs fuel s'
      .ok (nm :: nms, s'')

/-- Index.__iter__, run to exhaustion: first the cached filenames in
insertion order, then every newly parsed record's filename. -/
def indexIter (codecs : List Codec) (s : IndexState) :
    Except PyErr (List String × IndexState) := do
  let (nms, s') ← iterDrain codecs (s.blob.length + 1) s
  .ok (s.indexed.map Prod.fst ++ nms, s')

/-- The `while True` lookup loop of `Index.__getitem__`: parse records until
the requested name appears (then return its freshly cached header) or the
stream is exhausted (then `KeyError`). -/
def getLoop (codecs : List Codec) (name : String) :
    Nat → IndexState → Except PyErr (List Nat) × IndexState
  | 0, s => (.error .keyErr, s)
  | fuel + 1, s =>
    match parseNext codecs s with
    | (.error e, s') => (.error e, s')
    | (.ok none, s') => (.error .keyErr, s')
    | (.ok (some nm), s') =>
      if nm = name then
        match dictFind s'.indexed name with
        | some hdr => (.ok hdr, s')
        | none => (.error .keyErr, s')
      else getLoop codecs name fuel s'

/-- Index.__getitem__: answer from the cache when possible, otherwise run
the lookup loop. -/
def indexGet (codecs : List Codec) (s : IndexState) (name : String) :
    Except PyErr (List Nat) × IndexState :=
  match dictFind s.indexed name with
  | some hdr => (.ok hdr, s)
  | none => getLoop codecs name (s.blob.length + 1) s

/-- The index state right after `Index.__init__` decompressed the blob. -/
def initIndex (blob : List Nat) : IndexState := ⟨blob, 0, []⟩

/-- Index.__init__: read the two u32 lengths at the index offset and hand
`compressed_length` bytes to zlib (`inflate`). -/
def indexInit (inflate : List Nat → Except PyErr (List Nat))
    (stream : List Nat) (offset : Nat) : Except PyErr IndexState :=
  if (slice stream offset 8).length ≠ 8 then .error .structErr
  else do
    let blob ← inflate (slice stream (offset + 8) (u32At stream offset))
    .ok (initIndex blob)

/-- Run a sequence of `Index.__getitem__` calls for their effect on the
cache and cursor, ignoring the answers. -/
def applyGets (codecs : List Codec) (queries : List String) (s : IndexState) : IndexState :=
  queries.foldl (fun s q => (indexGet codecs s q).2) s

/-! ### Verification infrastructure -/

/-- Reachability invariant of an index state over a blob whose on-disk
records are `rs`: the cache holds the first `k` records in order and the
cursor sits where draining yields exactly the remaining records and ends at
the end of the blob. -/
def IndexInv (codecs : List Codec) (blob : List Nat) (rs : List (String × List Nat))
    (k : Nat) (s : IndexState) : Prop :=
  s.blob = blob ∧ s.indexed = rs.take k ∧
    drainRecs codecs blob (blob.length + 1) s.pos = .ok (rs.drop k, blob.length)

/-! ### Concrete inputs used by witnesses and counterexamples -/

/-- A stand-in member of the codec chain for concrete instantiations: it
decodes pure-ASCII byte strings, on which every codec of the real
`ENCODINGS` chain (all ASCII supersets) acts identically, and declines
anything else. -/
def asciiCodec : Codec := fun bs =>
  if bs.all (· < 128) then some (String.mk (bs.map Char.ofNat)) else none

/-- A concrete codec chain made of the stand-in. -/
def stubChain : List Codec := [asciiCodec]

/-- A stand-in for `zlib.decompress` at one concrete point: an inflate
function that produces the three bytes `b'abc'` (zlib does exactly this on
the stream `zlib.compress(b'abc')`, whatever the input length). -/
def inflateStub : List Nat → Except PyErr (List Nat) := fun _ => .ok [97, 98, 99]

/-- A 17-byte GRF file header whose `real_size` field (bytes 8..12) is 5:
compressed size 9, archived size 11, real size 5, flag 1, position 0. -/
def c1hdr : List Nat := [9, 0, 0, 0, 11, 0, 0, 0, 5, 0, 0, 0, 1, 0, 0, 0, 0]

/-- An ACT file, version 0x202: header count 2, two zero-frame animations,
zero triggers, and a single trailing interval single (the pattern
0x3f000000, i.e. 0.5) — one interval fewer than there are animations. -/
def c2data : List Nat :=
  [65, 67, 2, 2, 2, 0, 0, 0, 0, 0, 0, 0, 0, 0, 0, 0,
   0, 0, 0, 0, 0, 0, 0, 0, 0, 0, 0, 0, 0, 0, 0, 63]

/-- A 16-byte ACT layer record whose flags word is 2: bit 0 clear but
non-zero. -/
def c3bytes : List Nat := [0, 0, 0, 0, 0, 0, 0, 0, 0, 0, 0, 0, 2, 0, 0, 0]

/-- An SPR file, version 0x201, one indexed image: record `w=1, h=1,
size=2` whose compressed payload `[2, 3]` expands to two bytes — one more
pixel than `w*h`. -/
def c4data : List Nat := [83, 80, 1, 2, 1, 0, 0, 0, 1, 0, 1, 0, 2, 0, 2, 3]

/-- The image the version-0x201 parser produces from `c4data`: 1×1 with two
pixels. -/
def c4image : Image := ⟨1, 1, [⟨1, 0, 1, 255⟩, ⟨2, 0, 2, 255⟩]⟩

/-- An ACT file whose version word is 0x300 — far outside the documented
0x200..0x205 ladder: header count 0, zero triggers, empty interval tail. -/
def c5data : List Nat := [65, 67, 0, 3, 0, 0, 0, 0, 0, 0, 0, 0, 0, 0, 0, 0, 0, 0, 0, 0]

/-- An SPR file, version 0x100, one indexed image (and no palette, as in
every version-0x100 file). -/
def c6data : List Nat := [83, 80, 0, 1, 1, 0, 1, 0, 1, 0, 5]

/-- An SPR file, version 0x201, one indexed image: record `w=1, h=1,
size=2` whose compressed payload `[7, 0]` ends with a zero run marker whose
count byte is missing. -/
def c10data : List Nat := [83, 80, 1, 2, 1, 0, 0, 0, 1, 0, 1, 0, 2, 0, 7, 0]

/-- A constant 17-byte file header used by the index blobs below. -/
def hdr17x : List Nat := [1, 0, 0, 0, 2, 0, 0, 0, 3, 0, 0, 0, 1, 0, 0, 0, 0]

/-- An index blob holding two records with the same name `a`. -/
def dupBlob : List Nat := [97, 0] ++ hdr17x ++ [97, 0] ++ hdr17x

/-- An index blob holding the records `a` and `b`. -/
def okBlob : List Nat := [97, 0] ++ hdr17x ++ [98, 0] ++ hdr17x

/-- The on-disk records of `okBlob`. -/
def okRecs : List (String × List Nat) := [("a", hdr17x), ("b", hdr17x)]

/-! ## Theorems -/

/-- Destructure a successful `Except` bind. -/
theorem exceptBind_ok {ε α β : Type} {x : Except ε α} {f : α → Except ε β} {y : β}
    (h : (x >>= f) = .ok y) : ∃ a, x = .ok a ∧ f a = .ok y := by
  cases x with
  | error e => cases h
  | ok a => exact ⟨a, rfl, h⟩

/-- The color step of parse_layer does not touch the flipped flag. -/
theorem parseLayerColor_flipped {v : Nat} {layer : Layer} {st : BStream}
    {r : Layer × BStream} (h : parseLayerColor v layer st = .ok r) :
    r.1.flipped = layer.flipped := by
  unfold parseLayerColor at h
  split at h
  · obtain ⟨⟨cs, st2⟩, _, h⟩ := exceptBind_ok h
    dsimp only at h
    cases h
    rfl
  · cases h; rfl

/-- The zoom step of parse_layer does not touch the flipped flag. -/
theorem parseLayerZoom_flipped {v : Nat} {layer : Layer} {st : BStream}
    {r : Layer × BStream} (h : parseLayerZoom v layer st = .ok r) :
    r.1.flipped = layer.flipped := by
  unfold parseLayerZoom at h
  split at h
  · obtain ⟨⟨zs, st2⟩, _, h⟩ := exceptBind_ok h
    dsimp only at h
    cases h
    rfl
  · split at h
    · obtain ⟨⟨zs, st2⟩, _, h⟩ := exceptBind_ok h
      dsimp only at h
      cases h
      rfl
    · cases h; rfl

/-- The angle step of parse_layer does not touch the flipped flag. -/
theorem parseLayerAngle_flipped {v : Nat} {layer : Layer} {st : BStream}
    {r : Layer × BStream} (h : parseLayerAngle v layer st = .ok r) :
    r.1.flipped = layer.flipped := by
  unfold parseLayerAngle at h
  split at h
  · obtain ⟨⟨as, st2⟩, _, h⟩ := exceptBind_ok h
    dsimp only at h
    cases h
    rfl
  · cases h; rfl

/-- C3 (corrected): a parsed ACT layer's flipped flag is the test
`flags != 0` on the stored u32 flags word — not `(flags & 1) != 0`: any
non-zero flags value, bit 0 set or not, makes the layer flipped. -/
theorem parseLayer_flipped_iff_nonzero :
    ∀ (v : Nat) (st : BStream) (l : Layer) (st' : BStream),
      parseLayer v st = .ok (l, st') →
      l.flipped = decide (u32At (slice st.data st.pos 16) 12 ≠ 0) := by
  intro v st l st' h
  unfold parseLayer at h
  obtain ⟨⟨bs, st1⟩, h16, h⟩ := exceptBind_ok h
  have hbs : bs = slice st.data st.pos 16 := by
    unfold unpackBytes bread at h16
    dsimp only at h16
    split at h16
    · cases h16; rfl
    · cases h16
  dsimp only at h
  obtain ⟨⟨l1, st2⟩, hc, h⟩ := exceptBind_ok h
  dsimp only at h
  obtain ⟨⟨l2, st3⟩, hz, h⟩ := exceptBind_ok h
  dsimp only at h
  obtain ⟨⟨l3, st4⟩, ha, h⟩ := exceptBind_ok h
  dsimp only at h
  cases h
  have e1 := parseLayerColor_flipped hc
  have e2 := parseLayerZoom_flipped hz
  have e3 := parseLayerAngle_flipped ha
  subst hbs
  rw [e3, e2, e1]

/-- C3 counterexample: a layer record whose flags word is 2 (bit 0 clear)
comes out flipped, where the claim demands `flipped = false`. -/
theorem parseLayer_flags_two_flipped :
    parseLayer 0x100 ⟨c3bytes, 0⟩ =
      .ok ({ offset := ⟨0, 0⟩, index := 0, flipped := true }, ⟨c3bytes, 16⟩) ∧
      ((2 : Nat) &&& 1) = 0 := by
  exact ⟨rfl, rfl⟩

/-- C3 witness: the flipped-iff-nonzero theorem applied to the concrete
flags-2 layer. -/
theorem parseLayer_flipped_iff_nonzero_witness :
    ({ offset := ⟨0, 0⟩, index := 0, flipped := true } : Layer).flipped =
      decide (u32At (slice c3bytes 0 16) 12 ≠ 0) :=
  parseLayer_flipped_iff_nonzero 0x100 ⟨c3bytes, 0⟩ _ ⟨c3bytes, 16⟩ rfl

/-- C1 (corrected): opening a GRF file returns the empty payload when the
stored `real_size` is zero, and otherwise returns exactly what zlib makes
of the `archived_size` bytes at the file's position — the source never
compares the decompressed length with `real_size`, so no mismatch is ever
reported. -/
theorem grfFileData_no_size_check :
    ∀ (inflate : List Nat → Except PyErr (List Nat)) (headerData stream : List Nat)
      (header : GRFFileHeader) (payload : List Nat),
    grfFileData inflate headerData stream = .ok (header, payload) →
      (header.real_size = 0 → payload = []) ∧
      (header.real_size ≠ 0 →
        inflate (slice stream header.position header.archived_size) = .ok payload) := by
  intro inflate headerData stream header payload h
  unfold grfFileData at h
  cases hph : parseFileHeader headerData with
  | error e => rw [hph] at h; cases h
  | ok hdr =>
    rw [hph] at h
    simp only [Except.instMonad, Except.bind] at h
    by_cases hz : hdr.real_size = 0
    · rw [if_pos hz] at h
      cases h
      exact ⟨fun _ => rfl, fun hne => absurd hz hne⟩
    · rw [if_neg hz] at h
      cases hinf : inflate (slice stream hdr.position hdr.archived_size) with
      | error e => rw [hinf] at h; cases h
      | ok out =>
        rw [hinf] at h
        simp only [Except.instMonad, Except.bind] at h
        cases h
        exact ⟨fun h0 => absurd h0 hz, fun _ => hinf⟩

/-- C1 counterexample: a header whose `real_size` is 5 while the
decompressed payload has three bytes is accepted without any error, where
the claim demands a `Corrupt` failure. -/
theorem grfFileData_size_mismatch_accepted :
    grfFileData inflateStub c1hdr [] = .ok (⟨9, 11, 5, 1, 46⟩, [97, 98, 99]) ∧
      ([97, 98, 99] : List Nat).length ≠ (GRFFileHeader.mk 9 11 5 1 46).real_size := by
  exact ⟨rfl, by decide⟩

/-- C1 witness: the no-size-check theorem applied to the concrete mismatch
input. -/
theorem grfFileData_no_size_check_witness :
    (GRFFileHeader.mk 9 11 5 1 46).real_size ≠ 0 ∧
      inflateStub (slice [] 46 11) = .ok [97, 98, 99] := by
  have h := grfFileData_no_size_check inflateStub c1hdr [] ⟨9, 11, 5, 1, 46⟩ [97, 98, 99] rfl
  exact ⟨by decide, h.2 (by decide)⟩

/-- Any suffix the RLE loop reaches whose single remaining byte is a zero
run marker makes the loop read past the end of the input. -/
theorem rle_aux :
    ∀ (n : Nat) (data : List Nat), data.length ≤ n →
      rleReaches data [0] = true → unpackRle data = .error .indexErr := by
  intro n
  induction n with
  | zero =>
    intro data hl hr
    have hd : data = [] := List.length_eq_zero.mp (Nat.le_zero.mp hl)
    subst hd
    simp [rleReaches] at hr
  | succ n ih =>
    intro data hl hr
    rcases data with _ | ⟨b, rest⟩
    · simp [rleReaches] at hr
    · rcases rest with _ | ⟨m, rest2⟩
      · rcases b with _ | b'
        · rfl
        · simp [rleReaches] at hr
      · rcases b with _ | b'
        · have hr2 : rleReaches rest2 [0] = true := hr
          have hlen : rest2.length ≤ n := by
            simp only [List.length_cons] at hl
            omega
          have hrec := ih rest2 hlen hr2
          show (fun out => List.replicate m 0 ++ out) <$> unpackRle rest2 = _
          rw [hrec]
          rfl
        · have hr2 : rleReaches (m :: rest2) [0] = true := hr
          have hlen : (m :: rest2).length ≤ n := by
            simp only [List.length_cons] at hl ⊢
            omega
          have hrec := ih (m :: rest2) hlen hr2
          show (fun out => (b' + 1) :: out) <$> unpackRle (m :: rest2) = _
          rw [hrec]
          rfl

/-- C10 (confirmed): whenever zero-run decompression reaches a suffix whose
only byte is a zero run marker — a final zero not consumed as a count byte —
it reads past the end of the input and fails with the untyped Python
`IndexError`, not the spec's typed `Truncated`; the same `IndexError`
surfaces at the public `get(i)` interface for a version-0x201 file whose
compressed payload ends this way. -/
theorem unpackRle_dangling_zero :
    (∀ data : List Nat, rleReaches data [0] = true →
      unpackRle data = .error .indexErr) ∧
    sprGetItem 0x201 c10data (.int 0) = .error .indexErr ∧
    PyErr.indexErr ≠ PyErr.structErr := by
  exact ⟨fun data hr => rle_aux data.length data le_rfl hr, rfl, by decide⟩

/-- C10 witness: the dangling-zero theorem applied to the two-byte payload
`[7, 0]`. -/
theorem unpackRle_dangling_zero_witness :
    rleReaches [7, 0] [0] = true ∧ unpackRle [7, 0] = .error .indexErr := by
  exact ⟨by decide, unpackRle_dangling_zero.1 [7, 0] (by decide)⟩

/-- C4 (corrected): zero-run decompression emits non-zero bytes literally
and expands a zero followed by a count `n` into `n` zero bytes, and the
version-0x201 indexed-image parser maps the decompressed indices through
the palette — but it never compares the decompressed length against `w*h`:
no failure is raised on a mismatch. -/
theorem unpackRle_spec_no_length_check :
    (unpackRle [] = .ok ([] : List Nat)) ∧
    (∀ (n : Nat) (rest : List Nat),
      unpackRle (0 :: n :: rest) = (fun out => List.replicate n 0 ++ out) <$> unpackRle rest) ∧
    (∀ (b : Nat) (rest : List Nat), b ≠ 0 →
      unpackRle (b :: rest) = (fun out => b :: out) <$> unpackRle rest) ∧
    (∀ (data : List Nat) (palette : List Color) (off : Nat) (bs indices : List Nat)
      (pixels : List Color),
      unpackFrom data off 6 = .ok bs →
      unpackRle (slice data (off + 6) (leVal (slice bs 4 2))) = .ok indices →
      mapPalette palette indices = .ok pixels →
      sprParsePal 0x201 data palette off =
        .ok ⟨leVal (bs.take 2), leVal (slice bs 2 2), pixels⟩) := by
  refine ⟨rfl, fun n rest => rfl, fun b rest hb => ?_, ?_⟩
  · rcases b with _ | b'
    · exact absurd rfl hb
    · rfl
  · intro data palette off bs indices pixels h1 h2 h3
    unfold sprParsePal
    rw [if_pos rfl, h1]
    simp only [Except.instMonad, Except.bind]
    rw [h2]
    simp only [Except.instMonad, Except.bind]
    rw [h3]

/-- C4 counterexample: a version-0x201 record with `w = h = 1` whose
payload decompresses to two bytes is accepted, producing a 1×1 image with
two pixels, where the claim demands a failure. -/
theorem sprParsePal_no_length_check :
    sprGetItem 0x201 c4data (.int 0) = .ok c4image ∧
      c4image.pixels.length ≠ c4image.width * c4image.height := by
  exact ⟨rfl, by decide⟩

/-- C4 witness: the RLE recurrences and the 0x201 record parse applied at
concrete inputs. -/
theorem unpackRle_spec_no_length_check_witness :
    unpackRle (0 :: 2 :: [5]) = (fun out => List.replicate 2 0 ++ out) <$> unpackRle [5] ∧
    unpackRle (7 :: [0]) = (fun out => 7 :: out) <$> unpackRle [0] ∧
    sprParsePal 0x201 c4data [⟨83, 80, 1, 0⟩, ⟨1, 0, 0, 255⟩, ⟨1, 0, 1, 255⟩, ⟨2, 0, 2, 255⟩] 8 =
      .ok ⟨1, 1, [⟨1, 0, 1, 255⟩, ⟨2, 0, 2, 255⟩]⟩ := by
  refine ⟨unpackRle_spec_no_length_check.2.1 2 [5],
    unpackRle_spec_no_length_check.2.2.1 7 [0] (by decide), ?_⟩
  exact unpackRle_spec_no_length_check.2.2.2 c4data _ 8 [1, 0, 1, 0, 2, 0] [2, 3] _ rfl rfl rfl

/-- C5 (corrected): the ACT parser passes no supported-version list to
`get_version`, so after the `AC` signature any u16 version value at all is
accepted — `UnsupportedVersion` is never raised for an ACT file. -/
theorem getVersion_act_unchecked :
    ∀ (data : List Nat), slice data 0 2 = actSignature → 4 ≤ data.length →
      getVersion ⟨data, 0⟩ actSignature none = .ok (u16At data 2, ⟨data, 4⟩) := by
  intro data hsig hlen
  have hr : readU16 ⟨data, 2⟩ = .ok (u16At data 2, ⟨data, 4⟩) := by
    unfold readU16 unpackBytes bread
    have hl2 : (slice data 2 2).length = 2 := by
      simp only [slice, List.length_take, List.length_drop]
      omega
    simp only [hl2, if_pos rfl]
    rfl
  have e1 : slice data 0 actSignature.length = actSignature := by
    rw [show actSignature.length = 2 from rfl, hsig]
  unfold getVersion bread
  simp only [e1]
  rw [if_neg (by simp)]
  rw [show (0 + actSignature.length : Nat) = 2 from rfl]
  rw [hr]
  rfl

/-- C5 counterexample: an ACT file with version word 0x300 — outside the
documented 0x200..0x205 set — parses successfully instead of failing with
`UnsupportedVersion`. -/
theorem actInit_accepts_version_0x300 :
    actInit c5data = .ok ⟨0x300, [], []⟩ ∧
      (0x300 : Nat) ∉ [0x200, 0x201, 0x202, 0x203, 0x204, 0x205] := by
  exact ⟨rfl, by decide⟩

/-- C5 witness: the unchecked-version theorem applied to the version-0x300
file. -/
theorem getVersion_act_unchecked_witness :
    slice c5data 0 2 = actSignature ∧ 4 ≤ c5data.length ∧
      getVersion ⟨c5data, 0⟩ actSignature none = .ok (u16At c5data 2, ⟨c5data, 4⟩) := by
  exact ⟨by decide, by decide, getVersion_act_unchecked c5data (by decide) (by decide)⟩

/-- C7 (confirmed): a 20-byte GAT tile record with four finite stored
heights decodes to the record whose exposed heights are the negated stored
values (in the order bottom left, bottom right, top left, top right), whose
type is the trailing u32, and whose altitude is the mean of the four
exposed heights. -/
theorem parseTile_inverts_heights :
    ∀ (data : List Nat) (bl br tl tr : ℚ),
      data.length = 20 →
      f32ToRat (u32At data 0) = some bl →
      f32ToRat (u32At data 4) = some br →
      f32ToRat (u32At data 8) = some tl →
      f32ToRat (u32At data 12) = some tr →
      parseTile data = some
        { bottom_left := -bl, bottom_right := -br, top_left := -tl, top_right := -tr,
          type := u32At data 16,
          altitude := (-bl + -br + -tl + -tr) / 4 } := by
  intro data bl br tl tr hlen h0 h4 h8 h12
  unfold parseTile
  rw [if_pos hlen, h0, h4, h8, h12]
  have hsum : ([-bl, -br, -tl, -tr] : List ℚ).sum = -bl + -br + -tl + -tr := by
    simp only [List.sum_cons, List.sum_nil]
    ring
  have hlen4 : ((([-bl, -br, -tl, -tr] : List ℚ).length : ℕ) : ℚ) = 4 := by
    simp
  dsimp only
  rw [hsum, hlen4]

/-- C7 witness: the tile theorem applied to a record of four zero heights
and type 7. -/
theorem parseTile_inverts_heights_witness :
    f32ToRat (u32At ((List.replicate 16 0) ++ [7, 0, 0, 0]) 0) = some 0 ∧
      parseTile ((List.replicate 16 0) ++ [7, 0, 0, 0]) = some
        { bottom_left := -0, bottom_right := -0, top_left := -0, top_right := -0,
          type := u32At ((List.replicate 16 0) ++ [7, 0, 0, 0]) 16,
          altitude := (-0 + -0 + -0 + -0 : ℚ) / 4 } := by
  have hf : f32ToRat 0 = some 0 := by
    unfold f32ToRat
    norm_num
  have hz : ∀ off, off = 0 ∨ off = 4 ∨ off = 8 ∨ off = 12 →
      u32At ((List.replicate 16 0) ++ [7, 0, 0, 0]) off = 0 := by
    intro off h
    rcases h with h | h | h | h <;> subst h <;> decide
  refine ⟨by rw [hz 0 (by tauto), hf], ?_⟩
  exact parseTile_inverts_heights _ 0 0 0 0 (by decide)
    (by rw [hz 0 (by tauto), hf]) (by rw [hz 4 (by tauto), hf])
    (by rw [hz 8 (by tauto), hf]) (by rw [hz 12 (by tauto), hf])

/-- C2 (corrected): when the interval tail of an ACT file (version 0x202
and later) holds `m` singles and the file holds `n` animations, the first
`min n m` animations get their interval replaced in order, singles beyond
the `n`-th are ignored — but animations beyond the `m`-th are dropped, not
left at the default 4.0: `zip` truncates the animation tuple to length
`min n m`. -/
theorem parseIntervals_truncates :
    ∀ (anims : List Animation) (st : BStream),
      (st.data.drop st.pos).length % 4 = 0 →
      parseIntervals anims st =
        .ok (List.zipWith (fun a f => { a with interval := f }) anims
            (intervalsOf (st.data.drop st.pos)),
          ⟨st.data, st.pos + (st.data.drop st.pos).length⟩) ∧
      (List.zipWith (fun a f => { a with interval := f }) anims
          (intervalsOf (st.data.drop st.pos))).length =
        min anims.length (intervalsOf (st.data.drop st.pos)).length ∧
      (∀ i : Nat,
        (List.zipWith (fun a f => { a with interval := f }) anims
            (intervalsOf (st.data.drop st.pos))).get? i =
          ((anims.get? i).map (fun a f => { a with interval := f })).bind fun g =>
            ((intervalsOf (st.data.drop st.pos)).get? i).map g) := by
  intro anims st hmod
  refine ⟨?_, List.length_zipWith _ _ _, fun i => List.get?_zipWith' _ _ _ _⟩
  unfold parseIntervals breadAll
  dsimp only
  rw [if_neg (by simpa using hmod)]

/-- C2 counterexample: an ACT file declaring two animations but carrying a
single trailing interval parses to only one animation — the second is
dropped instead of keeping the default interval 4.0. -/
theorem actInit_drops_animation_without_interval :
    actInit c2data = .ok ⟨0x202, [⟨[], 0x3f000000⟩], []⟩ ∧
      u16At c2data 4 = 2 ∧
      ([⟨[], 0x3f000000⟩] : List Animation).length ≠ 2 := by
  exact ⟨rfl, rfl, by decide⟩

/-- C2 witness: the truncation theorem applied to two default animations
and a one-single tail. -/
theorem parseIntervals_truncates_witness :
    parseIntervals [⟨[], floatFour⟩, ⟨[], floatFour⟩] ⟨[0, 0, 0, 63], 0⟩ =
      .ok ([⟨[], 0x3f000000⟩], ⟨[0, 0, 0, 63], 4⟩) := by
  have h := (parseIntervals_truncates [⟨[], floatFour⟩, ⟨[], floatFour⟩]
    ⟨[0, 0, 0, 63], 0⟩ (by decide)).1
  rw [h]
  rfl

/-- C6 (corrected): for a parsed SPR object, `len()` is
`pal_count + rgb_count`; an in-range index is handed to `get_image` after
normalisation (so `get(i)` returns an Image exactly when image decoding
succeeds — a version-0x100 file answers an in-range indexed request with
the NoPalette error instead); a negative in-range index `-k` denotes the
same element as `len()-k`; integer indices outside `[-len, len-1]` and
non-integer indices fail with `IndexError`. -/
theorem sprGetItem_indexing :
    ∀ (v : Nat) (data : List Nat) (pal rgb : Nat),
      sprParseCount v data = .ok (pal, rgb) →
      sprLen v data = .ok (pal + rgb) ∧
      (∀ i : Nat, i < pal + rgb →
        sprGetItem v data (.int i) = sprGetImage v data i) ∧
      (∀ k : Nat, 1 ≤ k → k ≤ pal + rgb →
        sprGetItem v data (.int (-(k : Int))) =
          sprGetItem v data (.int ((pal + rgb : Nat) - (k : Int)))) ∧
      (∀ i : Int, i < -((pal + rgb : Nat) : Int) ∨ ((pal + rgb : Nat) : Int) ≤ i →
        sprGetItem v data (.int i) = .error .indexErr) ∧
      sprGetItem v data .nonInt = .error .indexErr := by
  intro v data pal rgb hcount
  have hlen : sprLen v data = .ok (pal + rgb) := by
    unfold sprLen
    rw [hcount]
    rfl
  refine ⟨hlen, ?_, ?_, ?_, rfl⟩
  · intro i hi
    show (do
      let length ← sprLen v data
      let i' := if (i : Int) < 0 then (length : Int) + i else (i : Int)
      if i' < 0 ∨ i' ≥ (length : Int) then .error .indexErr
      else sprGetImage v data i'.toNat) = _
    rw [hlen]
    simp only [Except.instMonad, Except.bind]
    rw [if_neg (show ¬ ((i : Nat) : Int) < 0 by omega)]
    rw [if_neg (by omega)]
    rw [Int.toNat_natCast]
  · intro k h1 h2
    show (do
      let length ← sprLen v data
      let i' := if (-(k : Int)) < 0 then (length : Int) + (-(k : Int)) else (-(k : Int))
      if i' < 0 ∨ i' ≥ (length : Int) then .error .indexErr
      else sprGetImage v data i'.toNat) = _
    rw [hlen]
    simp only [Except.instMonad, Except.bind]
    rw [if_pos (show (-(k : Int)) < 0 by omega)]
    rw [if_neg (by omega)]
    show _ = (do
      let length ← sprLen v data
      let i' := if ((pal + rgb : Nat) - (k : Int)) < 0
        then (length : Int) + ((pal + rgb : Nat) - (k : Int))
        else ((pal + rgb : Nat) - (k : Int))
      if i' < 0 ∨ i' ≥ (length : Int) then .error .indexErr
      else sprGetImage v data i'.toNat)
    rw [hlen]
    simp only [Except.instMonad, Except.bind]
    rw [if_neg (show ¬ ((pal + rgb : Nat) - (k : Int)) < 0 by omega)]
    rw [if_neg (by omega)]
    congr 1
  · intro i hout
    show (do
      let length ← sprLen v data
      let i' := if i < 0 then (length : Int) + i else i
      if i' < 0 ∨ i' ≥ (length : Int) then .error .indexErr
      else sprGetImage v data i'.toNat) = _
    rw [hlen]
    simp only [Except.instMonad, Except.bind]
    rcases hout with hlt | hge
    · rw [if_pos (show i < 0 by omega)]
      rw [if_pos (Or.inl (by omega))]
    · rw [if_neg (show ¬ i < 0 by omega)]
      rw [if_pos (Or.inr (by omega))]

/-- C6 counterexample: a version-0x100 SPR with one indexed image: index 0
is in range, yet `get(0)` raises the NoPalette parse error rather than
returning an Image. -/
theorem sprGetItem_inrange_not_image :
    sprLen 0x100 c6data = .ok 1 ∧
      sprGetItem 0x100 c6data (.int 0) =
        .error (.fileParse "unable to parse pal images without a palette") := by
  exact ⟨rfl, rfl⟩

/-- C6 witness: the indexing theorem applied to the one-image file — the
negative alias, the out-of-range failure and the non-integer failure at
concrete indices. -/
theorem sprGetItem_indexing_witness :
    sprParseCount 0x100 c6data = .ok (1, 0) ∧
      sprGetItem 0x100 c6data (.int (-1)) = sprGetItem 0x100 c6data (.int ((1 : Nat) - (1 : Int))) ∧
      sprGetItem 0x100 c6data (.int 5) = .error .indexErr ∧
      sprGetItem 0x100 c6data .nonInt = .error .indexErr := by
  have h := sprGetItem_indexing 0x100 c6data 1 0 rfl
  exact ⟨rfl, h.2.2.1 1 (by decide) (by decide), h.2.2.2.1 5 (by omega), h.2.2.2.2⟩

/-- The backslash split never produces an empty component list. -/
theorem splitSep_ne_nil : ∀ raw : List Nat, splitSep raw ≠ [] := by
  intro raw
  induction raw with
  | nil => simp [splitSep]
  | cons b rest ih =>
    unfold splitSep
    split
    · simp
    · cases h : splitSep rest with
      | nil => simp
      | cons p ps => simp

/-- A one-component split means the input was that component. -/
theorem splitSep_single : ∀ (raw l : List Nat), splitSep raw = [l] → raw = l := by
  intro raw
  induction raw with
  | nil =>
    intro l h
    simp only [splitSep] at h
    exact (List.cons.injEq _ _ _ _ ▸ h).1.symm ▸ rfl
  | cons b rest ih =>
    intro l h
    unfold splitSep at h
    split at h
    · obtain ⟨h1, h2⟩ := List.cons.injEq _ _ _ _ ▸ h
      exact absurd h2 (splitSep_ne_nil rest)
    · cases hs : splitSep rest with
      | nil => exact absurd hs (splitSep_ne_nil rest)
      | cons p ps =>
        rw [hs] at h
        obtain ⟨h1, h2⟩ := List.cons.injEq _ _ _ _ ▸ h
        have : rest = p := ih p (by rw [hs, h2])
        rw [← h1, this]

/-- A raw name of the form `data\rest` splits into `data` followed by the
split of `rest`. -/
theorem splitSep_data_prepend :
    ∀ rest : List Nat, splitSep (dataBytes ++ 92 :: rest) = dataBytes :: splitSep rest := by
  intro rest
  cases h : splitSep rest with
  | nil => exact absurd h (splitSep_ne_nil rest)
  | cons p ps => simp [dataBytes, splitSep, h]

/-- When every codec declines, the chain yields nothing. -/
theorem firstCodec_none :
    ∀ (codecs : List Codec) (raw : List Nat),
      (∀ c ∈ codecs, c raw = none) → firstCodec codecs raw = none := by
  intro codecs raw
  induction codecs with
  | nil => intro _; rfl
  | cons c rest ih =>
    intro h
    unfold firstCodec
    rw [h c (List.mem_cons_self c rest)]
    exact ih fun c' hc' => h c' (List.mem_cons_of_mem c hc')

/-- C9 (corrected): filename decoding is total except at exactly one input —
the raw name `b'data'`, whose sole component is stripped, leaving
`os.path.join` with no argument and a `TypeError`.  Every other raw byte
sequence decodes to some string: components split on the backslash, a
leading `data` component is stripped, each component is decoded through the
codec chain, and when every codec fails the component degrades to the
UTF-8/backslashreplace fallback with the `\x` prefixes removed (two hex
digits remain per escaped byte). -/
theorem parseName_total :
    ∀ (codecs : List Codec) (raw : List Nat),
      (raw = dataBytes → parseName codecs raw = .error .typeErr) ∧
      (raw ≠ dataBytes → ∃ s, parseName codecs raw = .ok s) ∧
      ((∀ c ∈ codecs, c raw = none) →
        decodeName codecs raw = String.mk (stripBsx (utf8Bsr raw))) ∧
      (∀ rest : List Nat,
        parseName codecs (dataBytes ++ 92 :: rest) =
          match (splitSep rest).map (decodeName codecs) with
          | [] => .error .typeErr
          | p :: ps => .ok (pjoin p ps)) := by
  intro codecs raw
  refine ⟨?_, ?_, ?_, ?_⟩
  · intro h
    subst h
    rfl
  · intro hne
    unfold parseName
    rcases hsp : splitSep raw with _ | ⟨p, ps⟩
    · exact absurd hsp (splitSep_ne_nil raw)
    · dsimp only
      by_cases hp : p = dataBytes
      · rw [if_pos hp]
        rcases ps with _ | ⟨q, qs⟩
        · exact absurd (splitSep_single raw p hsp) (by rw [hp]; exact hne)
        · exact ⟨_, rfl⟩
      · rw [if_neg hp]
        exact ⟨_, rfl⟩
  · intro h
    unfold decodeName
    rw [firstCodec_none codecs raw h]
  · intro rest
    unfold parseName
    rw [splitSep_data_prepend rest]
    dsimp only
    rw [if_pos rfl]

/-- C9 counterexample: the raw filename `b'data'` does not decode to a
string — `parse_name` raises (`os.path.join` gets an empty argument list),
where the claim demands that decoding never raises. -/
theorem parseName_data_raises :
    parseName stubChain dataBytes = .error .typeErr := rfl

/-- C9 witness: the totality theorem applied at concrete points — a
successful decode of `a.txt` under the stand-in chain, and the hex fallback
on the lone byte 0xC8 that no codec accepts. -/
theorem parseName_total_witness :
    (∃ s, parseName stubChain [97, 46, 116, 120, 116] = .ok s) ∧
      decodeName stubChain [200] = String.mk (stripBsx (utf8Bsr [200])) := by
  refine ⟨(parseName_total stubChain [97, 46, 116, 120, 116]).2.1 (by decide), ?_⟩
  refine (parseName_total stubChain [200]).2.2.1 ?_
  intro c hc
  simp only [stubChain, List.mem_singleton] at hc
  subst hc
  rfl

/-- The name scan never consumes more bytes than the input holds. -/
theorem splitAtNull_le : ∀ l : List Nat, (splitAtNull l).2 ≤ l.length := by
  intro l
  induction l with
  | nil => simp [splitAtNull]
  | cons b rest ih =>
    rcases b with _ | b'
    · simp [splitAtNull]
    · cases hp : splitAtNull rest with
      | mk nm c =>
        have : splitAtNull ((b' + 1) :: rest) = ((b' + 1) :: nm, c + 1) := by
          simp [splitAtNull, hp]
        rw [this]
        rw [hp] at ih
        simpa using ih

/-- A non-empty scanned name means at least one byte was consumed. -/
theorem splitAtNull_pos : ∀ l : List Nat, (splitAtNull l).1 ≠ [] → 1 ≤ (splitAtNull l).2 := by
  intro l h
  rcases l with _ | ⟨b, rest⟩
  · exact absurd rfl h
  · rcases b with _ | b'
    · exact absurd rfl h
    · cases hp : splitAtNull rest with
      | mk nm c =>
        have : splitAtNull ((b' + 1) :: rest) = ((b' + 1) :: nm, c + 1) := by
          simp [splitAtNull, hp]
        rw [this]
        simp

/-- A successfully parsed index record advances the cursor and stays within
the blob. -/
theorem parseRec_some_bounds {codecs : List Codec} {blob : List Nat} {pos pos' : Nat}
    {r : String × List Nat}
    (h : parseRec codecs blob pos = (.ok (some r), pos')) :
    pos < pos' ∧ pos' ≤ blob.length := by
  unfold parseRec at h
  cases hsp : splitAtNull (blob.drop pos) with
  | mk raw consumed =>
    rw [hsp] at h
    dsimp only at h
    by_cases hraw : raw = []
    · rw [if_pos hraw] at h
      cases h
    · rw [if_neg hraw] at h
      cases hpn : parseName codecs raw with
      | error e => rw [hpn] at h; cases h
      | ok nm =>
        rw [hpn] at h
        dsimp only at h
        have hcle : consumed ≤ blob.length - pos := by
          have := splitAtNull_le (blob.drop pos)
          rw [hsp] at this
          simpa [List.length_drop] using this
        have hcpos : 1 ≤ consumed := by
          have := splitAtNull_pos (blob.drop pos) (by rw [hsp]; exact hraw)
          rw [hsp] at this
          exact this
        have hple : pos ≤ blob.length := by
          by_contra hgt
          have : blob.drop pos = [] := List.drop_eq_nil_of_le (by omega)
          rw [this] at hsp
          cases hsp
          exact hraw rfl
        have hhdr : (slice blob (pos + consumed) 17).length ≤ blob.length - (pos + consumed) := by
          simp only [slice, List.length_take, List.length_drop]
          omega
        cases h
        constructor
        · omega
        · omega

/-- One unfolding of drainRecs at positive fuel. -/
theorem drainRecs_succ (codecs : List Codec) (blob : List Nat) (f pos : Nat) :
    drainRecs codecs blob (f + 1) pos =
      (match parseRec codecs blob pos with
      | (Except.error e, _) => Except.error e
      | (Except.ok none, pos') => Except.ok ([], pos')
      | (Except.ok (some r), pos') => do
        let (rs, e) ← drainRecs codecs blob f pos'
        Except.ok (r :: rs, e)) := rfl

/-- drainRecs is fuel-insensitive once the fuel exceeds the number of bytes
left. -/
theorem drainRecs_fuel {codecs : List Codec} {blob : List Nat} :
    ∀ (fuel fuel' pos : Nat), blob.length - pos < fuel → blob.length - pos < fuel' →
      drainRecs codecs blob fuel pos = drainRecs codecs blob fuel' pos := by
  intro fuel
  induction fuel with
  | zero => intro fuel' pos h _; omega
  | succ f ih =>
    intro fuel' pos h h'
    rcases fuel' with _ | f'
    · omega
    · rw [drainRecs_succ, drainRecs_succ]
      cases hr : parseRec codecs blob pos with
      | mk res pos' =>
        cases res with
        | error e => rfl
        | ok o =>
          cases o with
          | none => rfl
          | some r =>
            have hb := parseRec_some_bounds hr
            have heq : drainRecs codecs blob f pos' = drainRecs codecs blob f' pos' :=
              ih f' pos' (by omega) (by omega)
            dsimp only
            rw [heq]

/-- One unfolding of iterDrain at positive fuel. -/
theorem iterDrain_succ (codecs : List Codec) (f : Nat) (s : IndexState) :
    iterDrain codecs (f + 1) s =
      (match parseNext codecs s with
      | (Except.error e, _) => Except.error e
      | (Except.ok none, s') => Except.ok ([], s')
      | (Except.ok (some nm), s') => do
        let (nms, s'') ← iterDrain codecs f s'
        Except.ok (nm :: nms, s'')) := rfl

/-- One unfolding of getLoop at positive fuel. -/
theorem getLoop_succ (codecs : List Codec) (name : String) (f : Nat) (s : IndexState) :
    getLoop codecs name (f + 1) s =
      (match parseNext codecs s with
      | (Except.error e, s') => (Except.error e, s')
      | (Except.ok none, s') => (Except.error PyErr.keyErr, s')
      | (Except.ok (some nm), s') =>
        if nm = name then
          match dictFind s'.indexed name with
          | some hdr => (Except.ok hdr, s')
          | none => (Except.error PyErr.keyErr, s')
        else getLoop codecs name f s') := rfl

/-- Inserting a key absent from a Python dict appends it. -/
theorem dictInsert_append {α : Type} :
    ∀ (l : List (String × α)) (k : String) (v : α),
      k ∉ l.map Prod.fst → dictInsert l k v = l ++ [(k, v)] := by
  intro l k v
  induction l with
  | nil => intro _; rfl
  | cons p rest ih =>
    intro h
    obtain ⟨k', v'⟩ := p
    simp only [List.map_cons, List.mem_cons, not_or] at h
    unfold dictInsert
    rw [if_neg (fun he => h.1 he.symm)]
    rw [ih h.2]
    rfl

/-- From an invariant state with records remaining, parse_next yields the
next on-disk record's name, caches its header, and strictly advances. -/
theorem inv_parseNext_cons {codecs : List Codec} {blob : List Nat}
    {rs : List (String × List Nat)} {k : Nat} {s : IndexState}
    {r : String × List Nat} {rest : List (String × List Nat)}
    (hnd : (rs.map Prod.fst).Nodup)
    (hinv : IndexInv codecs blob rs k s)
    (hdrop : rs.drop k = r :: rest) :
    ∃ pos', parseNext codecs s = (.ok (some r.1), ⟨blob, pos', rs.take (k + 1)⟩) ∧
      IndexInv codecs blob rs (k + 1) ⟨blob, pos', rs.take (k + 1)⟩ ∧
      blob.length - pos' < blob.length - s.pos := by
  obtain ⟨hblob, hidx, hdrain⟩ := hinv
  rw [hdrop, drainRecs_succ] at hdrain
  cases hr : parseRec codecs blob s.pos with
  | mk res pos' =>
    rw [hr] at hdrain
    cases res with
    | error e => cases hdrain
    | ok o =>
      cases o with
      | none =>
        simp only [Except.ok.injEq, Prod.mk.injEq] at hdrain
        exact absurd hdrain.1 (by simp)
      | some r0 =>
        dsimp only at hdrain
        cases hd2 : drainRecs codecs blob blob.length pos' with
        | error e => rw [hd2] at hdrain; cases hdrain
        | ok p =>
          obtain ⟨rest0, e0⟩ := p
          rw [hd2] at hdrain
          simp only [Except.instMonad, Except.bind, Except.ok.injEq, Prod.mk.injEq,
            List.cons.injEq] at hdrain
          obtain ⟨⟨hr0, hrest0⟩, he0⟩ := hdrain
          subst hr0
          subst hrest0
          subst he0
          have hb := parseRec_some_bounds hr
          have hget : rs[k]? = some r0 := by
            have h := List.getElem?_drop rs k 0
            rw [hdrop] at h
            simpa using h.symm
          have htake : rs.take k ++ [r0] = rs.take (k + 1) := by
            rw [List.take_succ, hget]
            rfl
          have hnotmem : r0.1 ∉ (rs.take k).map Prod.fst := by
            have hsplit : rs.map Prod.fst =
                (rs.take k).map Prod.fst ++ (rs.drop k).map Prod.fst := by
              rw [← List.map_append, List.take_append_drop]
            rw [hsplit, hdrop] at hnd
            have hdisj := List.disjoint_of_nodup_append hnd
            intro hmem
            exact hdisj hmem (by simp)
          have hins : dictInsert s.indexed r0.1 r0.2 = rs.take (k + 1) := by
            rw [hidx, dictInsert_append _ _ _ hnotmem]
            exact htake
          refine ⟨pos', ?_, ⟨rfl, rfl, ?_⟩, by omega⟩
          · unfold parseNext
            rw [hblob, hr]
            try dsimp only
            rw [hins]
          · have hdz : rs.drop (k + 1) = rest0 := by
              rw [← List.drop_drop, hdrop]
              rfl
            rw [hdz]
            rw [drainRecs_fuel (blob.length + 1) blob.length pos' (by omega) (by omega)]
            exact hd2

/-- From an invariant state with no records remaining, parse_next stops at
the end of the blob and the cache holds every record. -/
theorem inv_parseNext_nil {codecs : List Codec} {blob : List Nat}
    {rs : List (String × List Nat)} {k : Nat} {s : IndexState}
    (hinv : IndexInv codecs blob rs k s)
    (hdrop : rs.drop k = []) :
    parseNext codecs s = (.ok none, ⟨blob, blob.length, rs⟩) ∧ s.indexed = rs := by
  obtain ⟨hblob, hidx, hdrain⟩ := hinv
  rw [hdrop, drainRecs_succ] at hdrain
  have htk : rs.take k = rs :=
    List.take_of_length_le (by
      have := List.drop_eq_nil_iff.mp hdrop
      omega)
  cases hr : parseRec codecs blob s.pos with
  | mk res pos' =>
    rw [hr] at hdrain
    cases res with
    | error e => cases hdrain
    | ok o =>
      cases o with
      | some r0 =>
        dsimp only at hdrain
        cases hd2 : drainRecs codecs blob blob.length pos' with
        | error e => rw [hd2] at hdrain; cases hdrain
        | ok p =>
          obtain ⟨rest0, e0⟩ := p
          rw [hd2] at hdrain
          simp [Except.instMonad, Except.bind] at hdrain
      | none =>
        simp only [Except.ok.injEq, Prod.mk.injEq, List.nil_eq] at hdrain
        obtain ⟨-, hpos⟩ := hdrain
        constructor
        · unfold parseNext
          rw [hblob, hr]
          try dsimp only
          rw [hpos, hidx, htk]
        · rw [hidx, htk]

/-- Draining from the end of the blob finds nothing and stays put. -/
theorem drain_at_end (codecs : List Codec) (blob : List Nat) :
    drainRecs codecs blob (blob.length + 1) blob.length = .ok ([], blob.length) := by
  rw [drainRecs_succ]
  have : parseRec codecs blob blob.length = (.ok none, blob.length) := by
    unfold parseRec
    rw [List.drop_length]
    rfl
  rw [this]

/-- The fully drained state satisfies the invariant at every record. -/
theorem inv_final (codecs : List Codec) (blob : List Nat)
    (rs : List (String × List Nat)) :
    IndexInv codecs blob rs rs.length ⟨blob, blob.length, rs⟩ := by
  refine ⟨rfl, by simp, ?_⟩
  rw [List.drop_length]
  exact drain_at_end codecs blob

/-- From any invariant state, draining the iterator yields exactly the
remaining on-disk names and lands in the fully drained state. -/
theorem inv_iterDrain {codecs : List Codec} {blob : List Nat}
    {rs : List (String × List Nat)} (hnd : (rs.map Prod.fst).Nodup) :
    ∀ (fuel k : Nat) (s : IndexState), IndexInv codecs blob rs k s →
      blob.length - s.pos < fuel →
      iterDrain codecs fuel s =
        .ok ((rs.drop k).map Prod.fst, ⟨blob, blob.length, rs⟩) := by
  intro fuel
  induction fuel with
  | zero => intro k s _ h; omega
  | succ f ih =>
    intro k s hinv hfuel
    rw [iterDrain_succ]
    cases hdrop : rs.drop k with
    | nil =>
      obtain ⟨hpn, _⟩ := inv_parseNext_nil hinv hdrop
      rw [hpn]
      rfl
    | cons r rest =>
      obtain ⟨pos', hpn, hinv', hdec⟩ := inv_parseNext_cons hnd hinv hdrop
      have hdz : rs.drop (k + 1) = rest := by
        rw [← List.drop_drop, hdrop]
        rfl
      rw [hpn]
      dsimp only
      rw [ih (k + 1) _ hinv' (by dsimp only; omega)]
      rw [hdz]
      rfl

/-- A full iteration from any invariant state yields every on-disk name in
on-disk order and leaves the fully drained state. -/
theorem inv_indexIter {codecs : List Codec} {blob : List Nat}
    {rs : List (String × List Nat)} (hnd : (rs.map Prod.fst).Nodup)
    {k : Nat} {s : IndexState} (hinv : IndexInv codecs blob rs k s) :
    indexIter codecs s = .ok (rs.map Prod.fst, ⟨blob, blob.length, rs⟩) := by
  unfold indexIter
  rw [hinv.1]
  rw [inv_iterDrain hnd (blob.length + 1) k s hinv (by omega)]
  show Except.ok (s.indexed.map Prod.fst ++ (rs.drop k).map Prod.fst, _) = _
  rw [hinv.2.1, ← List.map_append, List.take_append_drop]

/-- The lookup loop preserves the invariant whatever it finds. -/
theorem inv_getLoop {codecs : List Codec} {blob : List Nat}
    {rs : List (String × List Nat)} (hnd : (rs.map Prod.fst).Nodup) :
    ∀ (fuel k : Nat) (s : IndexState) (name : String), IndexInv codecs blob rs k s →
      ∃ k', IndexInv codecs blob rs k' (getLoop codecs name fuel s).2 := by
  intro fuel
  induction fuel with
  | zero => intro k s name hinv; exact ⟨k, hinv⟩
  | succ f ih =>
    intro k s name hinv
    rw [getLoop_succ]
    cases hdrop : rs.drop k with
    | nil =>
      obtain ⟨hpn, _⟩ := inv_parseNext_nil hinv hdrop
      rw [hpn]
      exact ⟨rs.length, inv_final codecs blob rs⟩
    | cons r rest =>
      obtain ⟨pos', hpn, hinv', hdec⟩ := inv_parseNext_cons hnd hinv hdrop
      rw [hpn]
      dsimp only
      by_cases hname : r.1 = name
      · rw [if_pos hname]
        cases dictFind (rs.take (k + 1)) name with
        | some hdr => exact ⟨k + 1, hinv'⟩
        | none => exact ⟨k + 1, hinv'⟩
      · rw [if_neg hname]
        exact ih (k + 1) _ name hinv'

/-- A single name lookup preserves the invariant. -/
theorem inv_indexGet {codecs : List Codec} {blob : List Nat}
    {rs : List (String × List Nat)} (hnd : (rs.map Prod.fst).Nodup)
    {k : Nat} {s : IndexState} (hinv : IndexInv codecs blob rs k s) (name : String) :
    ∃ k', IndexInv codecs blob rs k' (indexGet codecs s name).2 := by
  unfold indexGet
  cases dictFind s.indexed name with
  | some hdr => exact ⟨k, hinv⟩
  | none => exact inv_getLoop hnd _ k s name hinv

/-- Any interleaving of lookups preserves the invariant. -/
theorem inv_applyGets {codecs : List Codec} {blob : List Nat}
    {rs : List (String × List Nat)} (hnd : (rs.map Prod.fst).Nodup) :
    ∀ (queries : List String) (k : Nat) (s : IndexState), IndexInv codecs blob rs k s →
      ∃ k', IndexInv codecs blob rs k' (applyGets codecs queries s) := by
  intro queries
  induction queries with
  | nil => intro k s hinv; exact ⟨k, hinv⟩
  | cons q qs ih =>
    intro k s hinv
    obtain ⟨k', hinv'⟩ := inv_indexGet hnd hinv q
    exact ih k' _ hinv'

/-- C8 (corrected): over an index blob whose records parse cleanly to the
end of the blob and carry pairwise-distinct decoded names, a full iteration
yields the names in on-disk order regardless of which `get(name)` lookups
were interleaved before it, and a second full iteration yields the same
sequence again.  (Without the distinct-name proviso the claim fails: the
cache dict collapses duplicates, so the second iteration differs from the
first.) -/
theorem indexIter_stable :
    ∀ (codecs : List Codec) (blob : List Nat) (rs : List (String × List Nat))
      (queries : List String),
      drainRecs codecs blob (blob.length + 1) 0 = .ok (rs, blob.length) →
      (rs.map Prod.fst).Nodup →
      indexIter codecs (applyGets codecs queries (initIndex blob)) =
        .ok (rs.map Prod.fst, ⟨blob, blob.length, rs⟩) ∧
      indexIter codecs ⟨blob, blob.length, rs⟩ =
        .ok (rs.map Prod.fst, ⟨blob, blob.length, rs⟩) := by
  intro codecs blob rs queries hwf hnd
  have hinv0 : IndexInv codecs blob rs 0 (initIndex blob) := ⟨rfl, rfl, by simpa using hwf⟩
  obtain ⟨k', hinv'⟩ := inv_applyGets hnd queries 0 _ hinv0
  exact ⟨inv_indexIter hnd hinv', inv_indexIter hnd (inv_final codecs blob rs)⟩

/-- C8 counterexample: an index blob with two records both named `a`: the
first full iteration yields `a` twice, the second — served from the
deduplicating cache dict — yields it once; consecutive iterations are not
equal. -/
theorem indexIter_unstable_duplicate :
    indexIter stubChain (initIndex dupBlob) =
      .ok (["a", "a"], ⟨dupBlob, 38, [("a", hdr17x)]⟩) ∧
    indexIter stubChain ⟨dupBlob, 38, [("a", hdr17x)]⟩ =
      .ok (["a"], ⟨dupBlob, 38, [("a", hdr17x)]⟩) ∧
    (["a", "a"] : List String) ≠ ["a"] := by
  exact ⟨rfl, rfl, by simp⟩

/-- C8 witness: the stability theorem applied to a two-record blob with an
interleaved lookup of `b`. -/
theorem indexIter_stable_witness :
    drainRecs stubChain okBlob (okBlob.length + 1) 0 = .ok (okRecs, okBlob.length) ∧
      indexIter stubChain (applyGets stubChain ["b"] (initIndex okBlob)) =
        .ok (okRecs.map Prod.fst, ⟨okBlob, okBlob.length, okRecs⟩) ∧
      indexIter stubChain ⟨okBlob, okBlob.length, okRecs⟩ =
        .ok (okRecs.map Prod.fst, ⟨okBlob, okBlob.length, okRecs⟩) := by
  have hwf : drainRecs stubChain okBlob (okBlob.length + 1) 0 =
      .ok (okRecs, okBlob.length) := rfl
  have h := indexIter_stable stubChain okBlob okRecs ["b"] hwf (by decide)
  exact ⟨hwf, h.1, h.2⟩

end PyGrf
